import Mathlib

/-!
Verification development for the Roguelike repository.

The file shallowly embeds the parts of the source that the specification
claims talk about:

* the grid map and the builder's reachability/exit pass
  (src/map_builder/common.rs, cull_and_set_exit);
* the world-lifecycle retention and healing logic
  (src/main.rs, entities_to_remove_on_level_change / goto_next_level);
* the save/load file interface (src/save_load_util.rs);
* the turn scheduler's tick dispatch (src/main.rs, State::tick).

Where the deciding code lives in repository modules that are not part of
the provided sources (map.rs, ecs components, gui enums) or in the external
rltk crate, the definitions are modelled from the specification and say so
in their doc comments.
-/

namespace Roguelike

/-- Tile kinds of the grid map, from TileType (Wall, Floor, StairsDown). -/
inductive TileType where
  | Wall
  | Floor
  | StairsDown
deriving DecidableEq, Repr

/-- Grid map with immutable dimensions, depth counter and a dense tile array
indexed by y*width+x, following the spec's data model for the Map struct
(the per-tile status flags and occupant lists play no role in the claims
about the builder pass and are omitted). -/
structure Map where
  width : Nat
  height : Nat
  depth : Int
  tiles : List TileType
deriving DecidableEq, Repr

/-- Tile lookup, defaulting out-of-range indices to Wall. -/
def tileAt (m : Map) (i : Nat) : TileType :=
  m.tiles.getD i TileType.Wall

/-- Modelled from the spec: is_walkable lives in the missing map.rs; the spec
says a tile is walkable when it is Floor or DownStairs (the Blocked status is
never set during map building, so it is omitted here). -/
def isWalkableTile : TileType → Bool
  | TileType.Floor => true
  | TileType.StairsDown => true
  | TileType.Wall => false

/-- Modelled from the spec: 4-directional neighbourhood of a tile index under
the idx(x,y) = y*width+x addressing scheme; the concrete exit enumeration
lives in the missing map.rs (get_available_exits), and the spec fixes
4-directional floor-to-floor steps. -/
def neighbors (m : Map) (i : Nat) : List Nat :=
  let x := i % m.width
  let y := i / m.width
  (if 0 < x then [i - 1] else []) ++
  (if x + 1 < m.width then [i + 1] else []) ++
  (if 0 < y then [i - m.width] else []) ++
  (if y + 1 < m.height then [i + m.width] else [])

/-- The exploration budget of the distance field, MAX_STEPS = 200.0 in
map_builder/common.rs. -/
def maxSteps : Nat := 200

/-- One breadth-first relaxation round of the distance field: every still
unreached walkable tile adjacent to a reached tile receives distance r.
This, iterated, models rltk's DijkstraMap with uniform step cost 1, as the
spec describes the reachability pass. -/
def bfsRound (m : Map) (d : List (Option Nat)) (r : Nat) : List (Option Nat) :=
  (List.range d.length).map fun i =>
    match d.getD i none with
    | some k => some k
    | none =>
      if isWalkableTile (tileAt m i) &&
          ((neighbors m i).any fun j => (d.getD j none).isSome)
      then some r else none

/-- Iterate bfsRound, counting rounds from r for the given fuel. -/
def bfsAux (m : Map) : Nat → List (Option Nat) → Nat → List (Option Nat)
  | 0, d, _ => d
  | fuel + 1, d, r => bfsAux m fuel (bfsRound m d r) (r + 1)

/-- Initial distance field: the start tile at distance 0, everything else
unreached. -/
def initDist (m : Map) (startIdx : Nat) : List (Option Nat) :=
  (List.replicate m.tiles.length (none : Option Nat)).set startIdx (some 0)

/-- Modelled from the spec: the uniform-cost shortest-path distance field from
the start tile, cost 1 per 4-directional step, capped at the exploration
budget (rltk's DijkstraMap as used by cull_and_set_exit; tiles beyond the
budget stay unreached, the code's f32::MAX, here none). -/
def distField (m : Map) (startIdx : Nat) (budget : Nat) : List (Option Nat) :=
  bfsAux m budget (initDist m startIdx) 1

/-- The culling part of cull_and_set_exit's loop: every Floor tile whose
distance is unreached becomes Wall, every other tile is kept. -/
def cullTiles (m : Map) (d : List (Option Nat)) : List TileType :=
  (List.range m.tiles.length).map fun i =>
    let t := tileAt m i
    if t = TileType.Floor ∧ d.getD i none = none then TileType.Wall else t

/-- One step of the exit-selection fold of cull_and_set_exit: a reachable
Floor tile strictly farther than the best so far becomes the new candidate
(index, distance) pair; the accumulator starts at (0, 0). -/
def exitStep (m : Map) (d : List (Option Nat)) (acc : Nat × Nat) (i : Nat) :
    Nat × Nat :=
  if tileAt m i = TileType.Floor then
    match d.getD i none with
    | none => acc
    | some k => if acc.2 < k then (i, k) else acc
  else acc

/-- The exit-selection fold of cull_and_set_exit over all tile indices in
order, starting from (0, 0) exactly as the source does. -/
def exitScan (m : Map) (d : List (Option Nat)) : Nat × Nat :=
  (List.range m.tiles.length).foldl (exitStep m d) (0, 0)

/-- cull_and_set_exit from map_builder/common.rs: compute the capped distance
field from the start tile, turn unreached floor tiles into walls, and place
the down stairs on the first floor tile attaining the maximum finite
distance. -/
def cull_and_set_exit (m : Map) (startIdx : Nat) : Map :=
  let d := distField m startIdx maxSteps
  { m with tiles := (cullTiles m d).set (exitScan m d).1 TileType.StairsDown }

/-- Reachability from the start through 4-directional steps that land on
Floor tiles of the given map. -/
inductive ReachesFloor (m : Map) (s : Nat) : Nat → Prop
  | refl : ReachesFloor m s s
  | step {i j : Nat} : ReachesFloor m s i → j ∈ neighbors m i →
      tileAt m j = TileType.Floor → ReachesFloor m s j

theorem getD_eq_none_of_len_le (l : List (Option Nat)) (i : Nat)
    (h : l.length ≤ i) : l.getD i none = none := by
  show (l.get? i).getD none = none
  rw [List.get?_len_le h]
  rfl

theorem get?_eq_of_getD_some (l : List (Option Nat)) (i k : Nat)
    (h : l.getD i none = some k) : l.get? i = some (some k) := by
  cases hg : l.get? i with
  | none =>
      rw [show l.getD i none = (l.get? i).getD none from rfl, hg] at h
      cases h
  | some v =>
      rw [show l.getD i none = (l.get? i).getD none from rfl, hg] at h
      rw [hg, show (some v).getD none = v from rfl] at *
      rw [h]

theorem lt_length_of_getD_some (l : List (Option Nat)) (i k : Nat)
    (h : l.getD i none = some k) : i < l.length := by
  by_contra hlt
  rw [getD_eq_none_of_len_le l i (le_of_not_lt hlt)] at h
  cases h

theorem bfsRound_length (m : Map) (d : List (Option Nat)) (r : Nat) :
    (bfsRound m d r).length = d.length := by
  simp [bfsRound]

theorem bfsAux_length (m : Map) (fuel : Nat) (d : List (Option Nat)) (r : Nat) :
    (bfsAux m fuel d r).length = d.length := by
  induction fuel generalizing d r with
  | zero => rfl
  | succ n ih => rw [bfsAux, ih, bfsRound_length]

theorem distField_length (m : Map) (s b : Nat) :
    (distField m s b).length = m.tiles.length := by
  rw [distField, bfsAux_length]
  simp [initDist]

theorem bfsRound_getD (m : Map) (d : List (Option Nat)) (r i : Nat)
    (h : i < d.length) :
    (bfsRound m d r).getD i none =
      match d.getD i none with
      | some k => some k
      | none =>
        if isWalkableTile (tileAt m i) &&
            ((neighbors m i).any fun j => (d.getD j none).isSome)
        then some r else none := by
  show ((bfsRound m d r).get? i).getD none = _
  rw [bfsRound, List.get?_map, List.get?_range h]
  rfl

theorem bfsRound_mono (m : Map) (d : List (Option Nat)) (r i k : Nat)
    (h : d.getD i none = some k) :
    (bfsRound m d r).getD i none = some k := by
  have hi : i < d.length := lt_length_of_getD_some d i k h
  rw [bfsRound_getD m d r i hi, h]

/-- Every value already assigned at some round is preserved verbatim by all
later rounds of the breadth-first iteration. -/
theorem bfsAux_mono (m : Map) (fuel : Nat) :
    ∀ (d : List (Option Nat)) (r i k : Nat), d.getD i none = some k →
      (bfsAux m fuel d r).getD i none = some k := by
  induction fuel with
  | zero => intro d r i k h; exact h
  | succ n ih =>
      intro d r i k h
      exact ih (bfsRound m d r) (r + 1) i k (bfsRound_mono m d r i k h)

/-- All assigned distances are below the bound r. -/
def Bounded (d : List (Option Nat)) (r : Nat) : Prop :=
  ∀ i k, d.getD i none = some k → k < r

/-- Every assigned distance is either the start at distance 0 or a walkable
tile with a strictly closer assigned neighbour: the backbone of the
shortest-path chain from any reached tile back to the start. -/
def ChainInv (m : Map) (s : Nat) (d : List (Option Nat)) : Prop :=
  ∀ i k, d.getD i none = some k →
    (i = s ∧ k = 0) ∨
    (0 < k ∧ isWalkableTile (tileAt m i) = true ∧
      ∃ j, j ∈ neighbors m i ∧ ∃ k', d.getD j none = some k' ∧ k' < k)

theorem initDist_some (m : Map) (s i k : Nat)
    (h : (initDist m s).getD i none = some k) : i = s ∧ k = 0 := by
  have hg : (initDist m s).get? i = some (some k) := get?_eq_of_getD_some _ i k h
  have hi : i = s := by
    by_contra hne
    have heq : (initDist m s).get? i
        = (List.replicate m.tiles.length (none : Option Nat)).get? i :=
      List.get?_set_ne _ _ (fun hsi => hne hsi.symm)
    rw [heq] at hg
    have := List.eq_of_mem_replicate (List.get?_mem hg)
    simp at this
  refine ⟨hi, ?_⟩
  have hmem : some k ∈ initDist m s := List.get?_mem hg
  rcases List.mem_or_eq_of_mem_set hmem with hrep | heq
  · have := List.eq_of_mem_replicate hrep
    simp at this
  · injection heq

theorem initDist_bounded (m : Map) (s : Nat) : Bounded (initDist m s) 1 := by
  intro i k h
  have := (initDist_some m s i k h).2
  omega

theorem initDist_chaininv (m : Map) (s : Nat) : ChainInv m s (initDist m s) :=
  fun i k h => Or.inl (initDist_some m s i k h)

theorem bounded_bfsRound (m : Map) (d : List (Option Nat)) (r : Nat)
    (hb : Bounded d r) : Bounded (bfsRound m d r) (r + 1) := by
  intro i k h
  have hi : i < d.length := by
    have := lt_length_of_getD_some _ i k h
    rwa [bfsRound_length] at this
  rw [bfsRound_getD m d r i hi] at h
  cases hd : d.getD i none with
  | some k' =>
      rw [hd] at h
      injection h with hk
      have := hb i k' hd
      omega
  | none =>
      rw [hd] at h
      by_cases hcond : (isWalkableTile (tileAt m i) &&
          ((neighbors m i).any fun j => (d.getD j none).isSome)) = true
      · rw [if_pos hcond] at h
        injection h with hk
        omega
      · rw [if_neg hcond] at h
        cases h

theorem chaininv_bfsRound (m : Map) (s : Nat) (d : List (Option Nat)) (r : Nat)
    (hr : 1 ≤ r) (hb : Bounded d r) (hc : ChainInv m s d) :
    ChainInv m s (bfsRound m d r) := by
  intro i k h
  have hi : i < d.length := by
    have := lt_length_of_getD_some _ i k h
    rwa [bfsRound_length] at this
  rw [bfsRound_getD m d r i hi] at h
  cases hd : d.getD i none with
  | some k' =>
      rw [hd] at h
      injection h with hk
      rw [← hk]
      rcases hc i k' hd with h0 | ⟨hpos, hw, j, hj, k'', hk'', hlt⟩
      · exact Or.inl h0
      · exact Or.inr ⟨hpos, hw, j, hj, k'', bfsRound_mono m d r j k'' hk'', hlt⟩
  | none =>
      rw [hd] at h
      by_cases hcond : (isWalkableTile (tileAt m i) &&
          ((neighbors m i).any fun j => (d.getD j none).isSome)) = true
      · rw [if_pos hcond] at h
        injection h with hk
        rw [← hk]
        obtain ⟨hw, hany⟩ := Bool.and_eq_true_iff.mp hcond
        obtain ⟨j, hjmem, hjsome⟩ := List.any_eq_true.mp hany
        cases hjd : d.getD j none with
        | none => rw [hjd] at hjsome; cases hjsome
        | some k'' =>
            exact Or.inr ⟨hr, hw, j, hjmem, k'',
              bfsRound_mono m d r j k'' hjd, hb j k'' hjd⟩
      · rw [if_neg hcond] at h
        cases h

theorem chaininv_bfsAux (m : Map) (s : Nat) (fuel : Nat) :
    ∀ (d : List (Option Nat)) (r : Nat), 1 ≤ r → Bounded d r → ChainInv m s d →
      ChainInv m s (bfsAux m fuel d r) := by
  induction fuel with
  | zero => intro d r _ _ hc; exact hc
  | succ n ih =>
      intro d r hr hb hc
      exact ih (bfsRound m d r) (r + 1) (Nat.le_succ_of_le hr)
        (bounded_bfsRound m d r hb) (chaininv_bfsRound m s d r hr hb hc)

/-- The capped distance field satisfies the chain invariant. -/
theorem chaininv_distField (m : Map) (s b : Nat) :
    ChainInv m s (distField m s b) :=
  chaininv_bfsAux m s b (initDist m s) 1 le_rfl (initDist_bounded m s)
    (initDist_chaininv m s)

theorem tileAt_eq_of_get? (m : Map) (i : Nat) (t : TileType)
    (h : m.tiles.get? i = some t) : tileAt m i = t := by
  show (m.tiles.get? i).getD TileType.Wall = t
  rw [h]
  rfl

theorem lt_length_of_tiles_get? (m : Map) (i : Nat) (t : TileType)
    (h : m.tiles.get? i = some t) : i < m.tiles.length := by
  by_contra hlt
  rw [List.get?_len_le (le_of_not_lt hlt)] at h
  cases h

theorem tiles_get?_eq (m : Map) (i : Nat) (hi : i < m.tiles.length) :
    m.tiles.get? i = some (tileAt m i) := by
  cases h : m.tiles.get? i with
  | none =>
      have := List.get?_eq_none.mp h
      omega
  | some t =>
      rw [tileAt_eq_of_get? m i t h]

theorem lt_length_of_tileAt_floor (m : Map) (i : Nat)
    (h : tileAt m i = TileType.Floor) : i < m.tiles.length := by
  by_contra hlt
  have : tileAt m i = TileType.Wall := by
    show (m.tiles.get? i).getD TileType.Wall = TileType.Wall
    rw [List.get?_len_le (le_of_not_lt hlt)]
    rfl
  rw [this] at h
  cases h

theorem lt_length_of_walkable (m : Map) (i : Nat)
    (h : isWalkableTile (tileAt m i) = true) : i < m.tiles.length := by
  by_contra hlt
  have : tileAt m i = TileType.Wall := by
    show (m.tiles.get? i).getD TileType.Wall = TileType.Wall
    rw [List.get?_len_le (le_of_not_lt hlt)]
    rfl
  rw [this] at h
  cases h

/-- A walkable tile in a map with no stairs is a floor tile. -/
theorem floor_of_walkable (m : Map) (i : Nat)
    (hns : TileType.StairsDown ∉ m.tiles)
    (h : isWalkableTile (tileAt m i) = true) : tileAt m i = TileType.Floor := by
  have hi : i < m.tiles.length := lt_length_of_walkable m i h
  cases ht : tileAt m i with
  | Wall => rw [ht] at h; cases h
  | Floor => rfl
  | StairsDown =>
      exfalso
      apply hns
      have := tiles_get?_eq m i hi
      rw [ht] at this
      exact List.get?_mem this

theorem cullTiles_length (m : Map) (d : List (Option Nat)) :
    (cullTiles m d).length = m.tiles.length := by
  simp [cullTiles]

theorem cullTiles_get? (m : Map) (d : List (Option Nat)) (i : Nat)
    (hi : i < m.tiles.length) :
    (cullTiles m d).get? i = some
      (if tileAt m i = TileType.Floor ∧ d.getD i none = none
       then TileType.Wall else tileAt m i) := by
  rw [cullTiles, List.get?_map, List.get?_range hi]
  rfl

/-- The culled tile array never contains a stairs tile when the input map has
none: the exit is placed only by the final set. -/
theorem cullTiles_no_stairs (m : Map) (d : List (Option Nat)) (i : Nat)
    (hns : TileType.StairsDown ∉ m.tiles)
    (h : (cullTiles m d).get? i = some TileType.StairsDown) : False := by
  have hi : i < m.tiles.length := by
    have := lt_length_of_tiles_get? (Map.mk m.width m.height m.depth (cullTiles m d)) i _ h
    rwa [show (Map.mk m.width m.height m.depth (cullTiles m d)).tiles = cullTiles m d from rfl,
      cullTiles_length] at this
  rw [cullTiles_get? m d i hi] at h
  injection h with hv
  by_cases hc : tileAt m i = TileType.Floor ∧ d.getD i none = none
  · rw [if_pos hc] at hv
    cases hv
  · rw [if_neg hc] at hv
    apply hns
    have := tiles_get?_eq m i hi
    rw [hv] at this
    exact List.get?_mem this

theorem exitStep_le (m : Map) (d : List (Option Nat)) (acc : Nat × Nat)
    (i : Nat) : acc.2 ≤ (exitStep m d acc i).2 := by
  unfold exitStep
  by_cases hf : tileAt m i = TileType.Floor
  · rw [if_pos hf]
    cases hd : d.getD i none with
    | none => exact le_rfl
    | some k =>
        show acc.2 ≤ (if acc.2 < k then (i, k) else acc).2
        by_cases hlt : acc.2 < k
        · rw [if_pos hlt]
          exact le_of_lt hlt
        · rw [if_neg hlt]
  · rw [if_neg hf]

theorem foldl_exitStep_le (m : Map) (d : List (Option Nat)) :
    ∀ (l : List Nat) (acc : Nat × Nat),
      acc.2 ≤ (l.foldl (exitStep m d) acc).2 := by
  intro l
  induction l with
  | nil => intro acc; exact le_rfl
  | cons a l ih =>
      intro acc
      exact le_trans (exitStep_le m d acc a) (ih (exitStep m d acc a))

theorem foldl_exitStep_max (m : Map) (d : List (Option Nat)) :
    ∀ (l : List Nat) (acc : Nat × Nat) (i : Nat), i ∈ l →
      tileAt m i = TileType.Floor → ∀ k, d.getD i none = some k →
      k ≤ (l.foldl (exitStep m d) acc).2 := by
  intro l
  induction l with
  | nil => intro acc i h; cases h
  | cons a l ih =>
      intro acc i hmem hfl k hk
      rcases List.mem_cons.mp hmem with rfl | hmem'
      · have h1 : k ≤ (exitStep m d acc i).2 := by
          unfold exitStep
          rw [if_pos hfl, hk]
          show k ≤ (if acc.2 < k then (i, k) else acc).2
          by_cases hlt : acc.2 < k
          · rw [if_pos hlt]
          · rw [if_neg hlt]
            omega
        exact le_trans h1 (foldl_exitStep_le m d l (exitStep m d acc i))
      · exact ih (exitStep m d acc a) i hmem' hfl k hk

/-- Validity of the exit accumulator: a strictly positive best distance comes
with a floor tile index carrying exactly that distance. -/
def ExitAccValid (m : Map) (d : List (Option Nat)) (acc : Nat × Nat) : Prop :=
  0 < acc.2 → tileAt m acc.1 = TileType.Floor ∧ d.getD acc.1 none = some acc.2

theorem exitStep_valid (m : Map) (d : List (Option Nat)) (acc : Nat × Nat)
    (i : Nat) (h : ExitAccValid m d acc) :
    ExitAccValid m d (exitStep m d acc i) := by
  unfold exitStep
  by_cases hf : tileAt m i = TileType.Floor
  · rw [if_pos hf]
    cases hd : d.getD i none with
    | none => exact h
    | some k =>
        show ExitAccValid m d (if acc.2 < k then (i, k) else acc)
        by_cases hlt : acc.2 < k
        · rw [if_pos hlt]
          intro _
          exact ⟨hf, hd⟩
        · rw [if_neg hlt]
          exact h
  · rw [if_neg hf]
    exact h

theorem foldl_exitStep_valid (m : Map) (d : List (Option Nat)) :
    ∀ (l : List Nat) (acc : Nat × Nat), ExitAccValid m d acc →
      ExitAccValid m d (l.foldl (exitStep m d) acc) := by
  intro l
  induction l with
  | nil => intro acc h; exact h
  | cons a l ih =>
      intro acc h
      exact ih (exitStep m d acc a) (exitStep_valid m d acc a h)

theorem exitScan_valid (m : Map) (d : List (Option Nat)) :
    ExitAccValid m d (exitScan m d) :=
  foldl_exitStep_valid m d (List.range m.tiles.length) (0, 0)
    (fun h => absurd h (by omega))

theorem exitScan_max (m : Map) (d : List (Option Nat)) (i : Nat)
    (hfl : tileAt m i = TileType.Floor) (k : Nat)
    (hk : d.getD i none = some k) : k ≤ (exitScan m d).2 :=
  foldl_exitStep_max m d (List.range m.tiles.length) (0, 0) i
    (List.mem_range.mpr (lt_length_of_tileAt_floor m i hfl)) hfl k hk

theorem mem_neighbors (m : Map) (i j : Nat) :
    j ∈ neighbors m i ↔
      (0 < i % m.width ∧ j = i - 1) ∨
      (i % m.width + 1 < m.width ∧ j = i + 1) ∨
      (0 < i / m.width ∧ j = i - m.width) ∨
      (i / m.width + 1 < m.height ∧ j = i + m.width) := by
  simp only [neighbors, List.mem_append, List.mem_singleton]
  constructor
  · intro h
    rcases h with ((h | h) | h) | h <;>
      rw [List.mem_ite_nil_right] at h <;>
      obtain ⟨hc, hj⟩ := h <;>
      rw [List.mem_singleton] at hj <;>
      tauto
  · intro h
    rcases h with ⟨hc, rfl⟩ | ⟨hc, rfl⟩ | ⟨hc, rfl⟩ | ⟨hc, rfl⟩
    · exact Or.inl (Or.inl (Or.inl (by rw [List.mem_ite_nil_right]; exact ⟨hc, List.mem_singleton.mpr rfl⟩)))
    · exact Or.inl (Or.inl (Or.inr (by rw [List.mem_ite_nil_right]; exact ⟨hc, List.mem_singleton.mpr rfl⟩)))
    · exact Or.inl (Or.inr (by rw [List.mem_ite_nil_right]; exact ⟨hc, List.mem_singleton.mpr rfl⟩))
    · exact Or.inr (by rw [List.mem_ite_nil_right]; exact ⟨hc, List.mem_singleton.mpr rfl⟩)

/-- The 4-directional neighbourhood relation is symmetric on in-range
indices of a well-formed map. -/
theorem neighbors_symm (m : Map) (hlen : m.tiles.length = m.width * m.height)
    (i j : Nat) (hi : i < m.tiles.length) (hj : j ∈ neighbors m i) :
    i ∈ neighbors m j := by
  have hw : 0 < m.width := by
    rcases Nat.eq_zero_or_pos m.width with h0 | h0
    · rw [h0] at hlen
      omega
    · exact h0
  have hiwh : i < m.width * m.height := hlen ▸ hi
  have hx : i % m.width < m.width := Nat.mod_lt i hw
  have hy : i / m.width < m.height := by
    rw [Nat.div_lt_iff_lt_mul hw]
    calc i < m.width * m.height := hiwh
    _ = m.height * m.width := Nat.mul_comm _ _
  have hid : m.width * (i / m.width) + i % m.width = i := Nat.div_add_mod i m.width
  rw [mem_neighbors] at hj
  rw [mem_neighbors]
  rcases hj with ⟨hc, rfl⟩ | ⟨hc, rfl⟩ | ⟨hc, rfl⟩ | ⟨hc, rfl⟩
  · -- west neighbour i - 1: its east neighbour is i again
    have e1 : i - 1 = m.width * (i / m.width) + (i % m.width - 1) := by omega
    have e2 : (i - 1) % m.width = i % m.width - 1 := by
      rw [e1, Nat.mul_add_mod, Nat.mod_eq_of_lt (by omega)]
    refine Or.inr (Or.inl ⟨?_, by omega⟩)
    rw [e2]
    omega
  · -- east neighbour i + 1: its west neighbour is i again
    have e1 : i + 1 = m.width * (i / m.width) + (i % m.width + 1) := by omega
    have e2 : (i + 1) % m.width = i % m.width + 1 := by
      rw [e1, Nat.mul_add_mod, Nat.mod_eq_of_lt hc]
    refine Or.inl ⟨?_, by omega⟩
    rw [e2]
    omega
  · -- north neighbour i - width: its south neighbour is i again
    obtain ⟨y', hy'⟩ : ∃ y', i / m.width = y' + 1 := ⟨i / m.width - 1, by omega⟩
    have e0 : m.width * (y' + 1) = m.width * y' + m.width := by
      rw [Nat.mul_add, Nat.mul_one]
    have e0' : m.width * y' + m.width + i % m.width = i := by
      rw [← e0, ← hy']
      exact hid
    have e1 : i - m.width = m.width * y' + i % m.width := by omega
    have e2 : (i - m.width) / m.width = y' := by
      rw [e1, Nat.mul_add_div hw, Nat.div_eq_of_lt hx]
      omega
    refine Or.inr (Or.inr (Or.inr ⟨?_, by omega⟩))
    rw [e2]
    omega
  · -- south neighbour i + width: its north neighbour is i again
    have e0 : m.width * (i / m.width + 1) = m.width * (i / m.width) + m.width := by
      rw [Nat.mul_add, Nat.mul_one]
    have e1 : i + m.width = m.width * (i / m.width + 1) + i % m.width := by omega
    have e2 : (i + m.width) / m.width = i / m.width + 1 := by
      rw [e1, Nat.mul_add_div hw, Nat.div_eq_of_lt hx]
    refine Or.inr (Or.inr (Or.inl ⟨?_, by omega⟩))
    rw [e2]
    exact Nat.succ_pos _

theorem neighbors_cull (m : Map) (s i : Nat) :
    neighbors (cull_and_set_exit m s) i = neighbors m i := rfl

theorem cull_tiles_length (m : Map) (s : Nat) :
    (cull_and_set_exit m s).tiles.length = m.tiles.length := by
  show ((cullTiles m _).set _ _).length = _
  rw [List.length_set, cullTiles_length]

theorem cull_get?_ne_exit (m : Map) (s i : Nat)
    (hne : i ≠ (exitScan m (distField m s maxSteps)).1) :
    (cull_and_set_exit m s).tiles.get? i
      = (cullTiles m (distField m s maxSteps)).get? i :=
  List.get?_set_ne _ _ (fun h => hne h.symm)

theorem cull_get?_exit (m : Map) (s : Nat)
    (he : (exitScan m (distField m s maxSteps)).1 < m.tiles.length) :
    (cull_and_set_exit m s).tiles.get? (exitScan m (distField m s maxSteps)).1
      = some TileType.StairsDown := by
  apply List.get?_set_eq_of_lt
  rw [cullTiles_length]
  exact he

/-- A reached floor tile off the exit stays a floor tile of the output map. -/
theorem cull_keeps_reached_floor (m : Map) (s i v : Nat)
    (hfl : tileAt m i = TileType.Floor)
    (hv : (distField m s maxSteps).getD i none = some v)
    (hne : i ≠ (exitScan m (distField m s maxSteps)).1) :
    tileAt (cull_and_set_exit m s) i = TileType.Floor := by
  have hi : i < m.tiles.length := lt_length_of_tileAt_floor m i hfl
  apply tileAt_eq_of_get?
  rw [cull_get?_ne_exit m s i hne, cullTiles_get? m (distField m s maxSteps) i hi]
  have hcond : ¬(tileAt m i = TileType.Floor ∧
      (distField m s maxSteps).getD i none = none) := by
    intro ⟨_, hnone⟩
    rw [hv] at hnone
    cases hnone
  rw [if_neg hcond, hfl]

/-- Any tile whose capped distance is strictly below the selected exit
distance is reachable from the start through floor tiles of the culled map. -/
theorem reaches_of_dist_lt (m : Map) (s : Nat)
    (hlen : m.tiles.length = m.width * m.height)
    (hns : TileType.StairsDown ∉ m.tiles)
    (hpos : 0 < (exitScan m (distField m s maxSteps)).2) :
    ∀ v i, (distField m s maxSteps).getD i none = some v →
      v < (exitScan m (distField m s maxSteps)).2 →
      ReachesFloor (cull_and_set_exit m s) s i := by
  intro v
  induction v using Nat.strong_induction_on with
  | _ v ih =>
    intro i hv hvK
    rcases chaininv_distField m s maxSteps i v hv with ⟨his, _⟩ |
        ⟨hvpos, hw, j, hjmem, v', hv', hlt⟩
    · exact his ▸ ReachesFloor.refl
    · have hi : i < m.tiles.length := by
        have := lt_length_of_getD_some _ i v hv
        rwa [distField_length] at this
      have hifl : tileAt m i = TileType.Floor := floor_of_walkable m i hns hw
      have hine : i ≠ (exitScan m (distField m s maxSteps)).1 := by
        intro heq
        have hval := exitScan_valid m (distField m s maxSteps) hpos
        rw [← heq] at hval
        rw [hval.2] at hv
        injection hv with hveq
        omega
      have hreachj : ReachesFloor (cull_and_set_exit m s) s j :=
        ih v' hlt j hv' (lt_trans hlt hvK)
      have hsymm : i ∈ neighbors m j := neighbors_symm m hlen i j hi hjmem
      have hout : tileAt (cull_and_set_exit m s) i = TileType.Floor :=
        cull_keeps_reached_floor m s i v hifl hv hine
      exact ReachesFloor.step hreachj
        (by rw [neighbors_cull]; exact hsymm) hout

/-- C2: after cull_and_set_exit, the map has exactly one StairsDown tile; it
sits on a floor tile of the input map and its capped shortest-path distance
from the start is the maximum finite distance attained by any floor tile.
The hypotheses state what every builder-produced map satisfies before the
pass runs: the tile array fills the grid, no stairs exist yet, and at least
one floor tile is reachable at a positive distance. -/
theorem cull_and_set_exit_unique_farthest_exit (m : Map) (s : Nat)
    (hns : TileType.StairsDown ∉ m.tiles)
    (hfl : ∃ i k, m.tiles.get? i = some TileType.Floor ∧
      (distField m s maxSteps).getD i none = some k ∧ 0 < k) :
    ∃ e K,
      (cull_and_set_exit m s).tiles.get? e = some TileType.StairsDown ∧
      (∀ j, (cull_and_set_exit m s).tiles.get? j = some TileType.StairsDown →
        j = e) ∧
      m.tiles.get? e = some TileType.Floor ∧
      (distField m s maxSteps).getD e none = some K ∧
      (∀ j k, m.tiles.get? j = some TileType.Floor →
        (distField m s maxSteps).getD j none = some k → k ≤ K) := by
  obtain ⟨i0, k0, hfl0, hd0, hk0⟩ := hfl
  have hmax0 : k0 ≤ (exitScan m (distField m s maxSteps)).2 :=
    exitScan_max m (distField m s maxSteps) i0
      (tileAt_eq_of_get? m i0 _ hfl0) k0 hd0
  have hpos : 0 < (exitScan m (distField m s maxSteps)).2 := by omega
  have hval := exitScan_valid m (distField m s maxSteps) hpos
  have he : (exitScan m (distField m s maxSteps)).1 < m.tiles.length :=
    lt_length_of_tileAt_floor m _ hval.1
  refine ⟨(exitScan m (distField m s maxSteps)).1,
    (exitScan m (distField m s maxSteps)).2, cull_get?_exit m s he, ?_, ?_,
    hval.2, ?_⟩
  · intro j hj
    by_contra hne
    rw [cull_get?_ne_exit m s j hne] at hj
    exact cullTiles_no_stairs m (distField m s maxSteps) j hns hj
  · rw [tiles_get?_eq m _ he, hval.1]
  · intro j k hjfl hjd
    exact exitScan_max m (distField m s maxSteps) j
      (tileAt_eq_of_get? m j _ hjfl) k hjd

/-- C3: after cull_and_set_exit, every tile that is still Floor is reachable
from the start tile via 4-directional steps through Floor tiles of the
culled map: every unreached floor tile (including those beyond the
exploration budget) was converted to Wall. Hypotheses as for the exit
theorem, plus the grid-shape invariant length = width*height. -/
theorem cull_and_set_exit_floor_reachable (m : Map) (s : Nat)
    (hlen : m.tiles.length = m.width * m.height)
    (hns : TileType.StairsDown ∉ m.tiles)
    (hfl : ∃ i k, m.tiles.get? i = some TileType.Floor ∧
      (distField m s maxSteps).getD i none = some k ∧ 0 < k) :
    ∀ i, (cull_and_set_exit m s).tiles.get? i = some TileType.Floor →
      ReachesFloor (cull_and_set_exit m s) s i := by
  obtain ⟨i0, k0, hfl0, hd0, hk0⟩ := hfl
  have hmax0 : k0 ≤ (exitScan m (distField m s maxSteps)).2 :=
    exitScan_max m (distField m s maxSteps) i0
      (tileAt_eq_of_get? m i0 _ hfl0) k0 hd0
  have hpos : 0 < (exitScan m (distField m s maxSteps)).2 := by omega
  have hval := exitScan_valid m (distField m s maxSteps) hpos
  have he : (exitScan m (distField m s maxSteps)).1 < m.tiles.length :=
    lt_length_of_tileAt_floor m _ hval.1
  intro i hi
  have hine : i ≠ (exitScan m (distField m s maxSteps)).1 := by
    intro heq
    rw [heq, cull_get?_exit m s he] at hi
    cases hi
  have hcul : (cullTiles m (distField m s maxSteps)).get? i
      = some TileType.Floor := by
    rw [← cull_get?_ne_exit m s i hine]
    exact hi
  have hilt : i < m.tiles.length := by
    have := lt_length_of_tiles_get?
      (Map.mk m.width m.height m.depth (cullTiles m (distField m s maxSteps)))
      i _ hcul
    rwa [show (Map.mk m.width m.height m.depth
        (cullTiles m (distField m s maxSteps))).tiles
        = cullTiles m (distField m s maxSteps) from rfl, cullTiles_length]
      at this
  rw [cullTiles_get? m (distField m s maxSteps) i hilt] at hcul
  injection hcul with hcv
  by_cases hcond : tileAt m i = TileType.Floor ∧
      (distField m s maxSteps).getD i none = none
  · rw [if_pos hcond] at hcv
    cases hcv
  · rw [if_neg hcond] at hcv
    cases hdi : (distField m s maxSteps).getD i none with
    | none => exact absurd ⟨hcv, hdi⟩ hcond
    | some v =>
        have hvK : v ≤ (exitScan m (distField m s maxSteps)).2 :=
          exitScan_max m (distField m s maxSteps) i hcv v hdi
        rcases Nat.lt_or_ge v (exitScan m (distField m s maxSteps)).2 with
          hlt | hge
        · exact reaches_of_dist_lt m s hlen hns hpos v i hdi hlt
        · have hveq : v = (exitScan m (distField m s maxSteps)).2 := by omega
          rcases chaininv_distField m s maxSteps i v hdi with ⟨his, hv0⟩ |
              ⟨hvpos, hw, j, hjmem, v', hv', hltv⟩
          · exact his ▸ ReachesFloor.refl
          · have hreachj : ReachesFloor (cull_and_set_exit m s) s j :=
              reaches_of_dist_lt m s hlen hns hpos v' j hv' (by omega)
            have hsymm : i ∈ neighbors m j :=
              neighbors_symm m hlen i j hilt hjmem
            exact ReachesFloor.step hreachj
              (by rw [neighbors_cull]; exact hsymm)
              (tileAt_eq_of_get? _ i _ hi)

/-- A concrete 2 by 1 all-floor map used to instantiate the builder-pass
theorems. -/
def mW : Map := Map.mk 2 1 1 [TileType.Floor, TileType.Floor]

set_option maxRecDepth 8000 in
/-- Concrete instance of the exit-placement theorem on the 2 by 1 map. -/
theorem cull_and_set_exit_unique_farthest_exit_witness :
    ∃ e K,
      (cull_and_set_exit mW 0).tiles.get? e = some TileType.StairsDown ∧
      (∀ j, (cull_and_set_exit mW 0).tiles.get? j = some TileType.StairsDown →
        j = e) ∧
      mW.tiles.get? e = some TileType.Floor ∧
      (distField mW 0 maxSteps).getD e none = some K ∧
      (∀ j k, mW.tiles.get? j = some TileType.Floor →
        (distField mW 0 maxSteps).getD j none = some k → k ≤ K) :=
  cull_and_set_exit_unique_farthest_exit mW 0 (by decide)
    ⟨1, 1, by decide, by decide, by decide⟩

set_option maxRecDepth 8000 in
/-- Concrete instance of the reachability theorem on the 2 by 1 map. -/
theorem cull_and_set_exit_floor_reachable_witness :
    ReachesFloor (cull_and_set_exit mW 0) 0 0 :=
  cull_and_set_exit_floor_reachable mW 0 (by decide) (by decide)
    ⟨1, 1, by decide, by decide, by decide⟩ 0 (by decide)

/-- Modelled from the spec: an entity with the components the retention rule
reads. The ecs component module is not among the provided sources; the spec
says InBackpack and Equipped carry an ownership back-reference to an owning
entity, here the optional owner id. -/
structure EntityRec where
  id : Nat
  inBackpack : Option Nat
  equipped : Option Nat
deriving DecidableEq, Repr

/-- entities_to_remove_on_level_change from main.rs: keep in the deletion
list every entity that is not the player, not in the player's bag and not
equipped by the player. -/
def entities_to_remove_on_level_change (ents : List EntityRec) (player : Nat) :
    List EntityRec :=
  ents.filter fun ent =>
    let is_player := ent.id == player
    let is_in_player_bag := ent.inBackpack == some player
    let is_equipped_by_player := ent.equipped == some player
    !is_player && !is_in_player_bag && !is_equipped_by_player

/-- Deleting one entity by id from the world's entity list. -/
def delete_entity (ents : List EntityRec) (target : Nat) : List EntityRec :=
  ents.filter fun e => !(e.id == target)

/-- The deletion loop of goto_next_level: delete every entity the retention
rule marked for removal, one delete_entity call per entry. -/
def goto_next_level_delete (ents : List EntityRec) (player : Nat) :
    List EntityRec :=
  (entities_to_remove_on_level_change ents player).foldl
    (fun w t => delete_entity w t.id) ents

/-- The retain set predicate of the spec: the player and every entity whose
backpack or equipped owner back-reference resolves to the player. -/
def retainedByPlayer (player : Nat) (e : EntityRec) : Bool :=
  e.id == player ||
    (e.inBackpack == some player || e.equipped == some player)

theorem foldl_delete_eq_filter (ds : List EntityRec) :
    ∀ ws : List EntityRec,
      ds.foldl (fun w t => delete_entity w t.id) ws
        = ws.filter fun e => !(ds.any fun t => e.id == t.id) := by
  induction ds with
  | nil =>
      intro ws
      simp
  | cons a ds ih =>
      intro ws
      rw [List.foldl_cons, ih (delete_entity ws a.id), delete_entity,
        List.filter_filter]
      apply List.filter_congr'
      intro e _
      rw [List.any_cons, Bool.not_or, Bool.and_comm]

theorem mem_remove_list_iff (ents : List EntityRec) (player : Nat)
    (e : EntityRec) :
    e ∈ entities_to_remove_on_level_change ents player ↔
      e ∈ ents ∧ retainedByPlayer player e = false := by
  rw [entities_to_remove_on_level_change, List.mem_filter]
  constructor
  · intro ⟨hm, hp⟩
    refine ⟨hm, ?_⟩
    rw [retainedByPlayer]
    revert hp
    cases e.id == player <;> cases e.inBackpack == some player <;>
      cases e.equipped == some player <;> intro hp <;> first | rfl | cases hp
  · intro ⟨hm, hp⟩
    refine ⟨hm, ?_⟩
    rw [retainedByPlayer] at hp
    revert hp
    cases e.id == player <;> cases e.inBackpack == some player <;>
      cases e.equipped == some player <;> intro hp <;> first | rfl | cases hp

/-- The level-transition deletion loop removes exactly the complement of the
retain set, provided entity ids are unique. -/
theorem goto_next_level_delete_eq_filter (ents : List EntityRec) (player : Nat)
    (hnodup : (ents.map fun e => e.id).Nodup) :
    goto_next_level_delete ents player
      = ents.filter (retainedByPlayer player) := by
  rw [goto_next_level_delete, foldl_delete_eq_filter]
  apply List.filter_congr'
  intro e he
  cases hr : retainedByPlayer player e with
  | true =>
      rw [Bool.not_eq_true', List.any_eq_false]
      intro t ht
      intro hid
      have htm := (mem_remove_list_iff ents player t).mp ht
      have : e = t := List.inj_on_of_nodup_map hnodup he htm.1
        (eq_of_beq hid)
      rw [← this] at htm
      rw [htm.2] at hr
      cases hr
  | false =>
      rw [Bool.not_eq_false', List.any_eq_true]
      exact ⟨e, (mem_remove_list_iff ents player e).mpr ⟨he, hr⟩,
        beq_self_eq_true e.id⟩

theorem length_filter_or (l : List EntityRec) (p q : EntityRec → Bool) :
    (l.filter fun e => p e || q e).length
      = (l.filter p).length + (l.filter fun e => !p e && q e).length := by
  induction l with
  | nil => rfl
  | cons a l ih =>
      cases hp : p a <;> cases hq : q a <;>
        simp [List.filter_cons, hp, hq, ih] <;> omega

/-- C4: after the level-advance deletion loop, exactly the retain set
survives; with a unique player record, the number of survivors is one plus
the number of non-player entities owned by the player, regardless of how
many unrelated entities the world held. -/
theorem goto_next_level_retains_exactly (ents : List EntityRec) (player : Nat)
    (hnodup : (ents.map fun e => e.id).Nodup)
    (hplayer : (ents.filter fun e => e.id == player).length = 1) :
    goto_next_level_delete ents player
      = ents.filter (retainedByPlayer player) ∧
    (goto_next_level_delete ents player).length
      = 1 + (ents.filter fun e => !(e.id == player) &&
          (e.inBackpack == some player || e.equipped == some player)).length := by
  have hmain := goto_next_level_delete_eq_filter ents player hnodup
  refine ⟨hmain, ?_⟩
  rw [hmain, show ents.filter (retainedByPlayer player)
      = ents.filter fun e => (e.id == player) ||
        (e.inBackpack == some player || e.equipped == some player) from rfl,
    length_filter_or, hplayer]

/-- Concrete world for the retention theorem: player 0, one backpack item and
one equipped item owned by the player, two unrelated entities. -/
def entsW : List EntityRec :=
  [EntityRec.mk 0 none none,
   EntityRec.mk 1 (some 0) none,
   EntityRec.mk 2 none none,
   EntityRec.mk 3 none (some 0),
   EntityRec.mk 4 none (some 2)]

/-- Concrete instance of the retention theorem: 2 owned items survive next to
the player, the 2 unrelated entities are deleted. -/
theorem goto_next_level_retains_exactly_witness :
    goto_next_level_delete entsW 0
      = entsW.filter (retainedByPlayer 0) ∧
    (goto_next_level_delete entsW 0).length
      = 1 + (entsW.filter fun e => !(e.id == 0) &&
          (e.inBackpack == some 0 || e.equipped == some 0)).length :=
  goto_next_level_retains_exactly entsW 0 (by decide) (by decide)

/-- Modelled from the spec: the CombatStats component (hp, max_hp,
attack/defense) of the missing ecs module; i32 fields as integers. -/
structure CombatStats where
  max_hp : Int
  hp : Int
  defense : Int
  power : Int
deriving DecidableEq, Repr

/-- The healing step at the end of goto_next_level in main.rs: if the player
has CombatStats, hp becomes i32::max(hp, max_hp / 2), with Rust's truncating
i32 division. -/
def goto_next_level_heal (stats : Option CombatStats) : Option CombatStats :=
  match stats with
  | some s => some { s with hp := max s.hp (Int.div s.max_hp 2) }
  | none => none

/-- C8: the level-advance heal sets hp to the maximum of the previous hp and
max_hp / 2, hence never lowers hp and always reaches at least half max HP;
every other field is untouched. -/
theorem goto_next_level_heal_spec (s : CombatStats) :
    ∃ s', goto_next_level_heal (some s) = some s' ∧
      s'.hp = max s.hp (Int.div s.max_hp 2) ∧
      s.hp ≤ s'.hp ∧ Int.div s.max_hp 2 ≤ s'.hp ∧
      s'.max_hp = s.max_hp ∧ s'.defense = s.defense ∧ s'.power = s.power :=
  ⟨_, rfl, rfl, le_max_left _ _, le_max_right _ _, rfl, rfl, rfl⟩

/-- A file system as an association list from paths to file contents; a file
content is the sequence of component-kind sections of one serialized save
stream. -/
abbrev Fs := List (String × List String)

/-- The path save_game writes: File::create of save_load_util.rs line 51. -/
def savePath : String := "./saves/savegame.json"

/-- The path load_game reads and does_save_exist / delete_save check:
save_load_util.rs lines 101, 167 and 172. -/
def loadPath : String := "./savegame.json"

/-- The component kinds serialized by save_game, in stream order, from the
serialize_individually invocation in save_load_util.rs. -/
def saveComponentKinds : List String :=
  ["AreaOfEffect", "BlocksTile", "CombatStats", "Consumable", "DefenseBonus",
   "Equipable", "Equipped", "InBackpack", "InflictsDamage", "Item",
   "MeleeDamageBonus", "Monster", "Name", "Player", "Position",
   "ProvidesHealing", "Ranged", "Renderable", "SerializationHelper",
   "SufferDamage", "Viewshed", "WantsToDropItem", "WantsToMelee",
   "WantsToPickupItem", "WantsToRemoveItem", "WantsToUseItem"]

/-- The component kinds deserialized by load_game, in stream order, from the
deserialize_individually invocation in save_load_util.rs. -/
def loadComponentKinds : List String :=
  ["AreaOfEffect", "BlocksTile", "CombatStats", "Consumable",
   "Equipable", "Equipped", "InBackpack", "InflictsDamage", "Item",
   "Monster", "Name", "Player", "Position",
   "ProvidesHealing", "Ranged", "Renderable", "SerializationHelper",
   "SufferDamage", "Viewshed", "WantsToDropItem", "WantsToMelee",
   "WantsToPickupItem", "WantsToRemoveItem", "WantsToUseItem"]

/-- Writing a file replaces any previous file at the same path. -/
def fsWrite (fs : Fs) (p : String) (content : List String) : Fs :=
  (p, content) :: fs.filter fun q => !(q.1 == p)

/-- Reading a file yields its content, or none when the path is absent. -/
def fsRead (fs : Fs) (p : String) : Option (List String) :=
  (fs.find? fun q => q.1 == p).map fun q => q.2

/-- save_game from save_load_util.rs at the file level: the serialized
component stream is written to savePath. -/
def save_game (fs : Fs) : Fs := fsWrite fs savePath saveComponentKinds

/-- does_save_exist from save_load_util.rs: the check is on loadPath. -/
def does_save_exist (fs : Fs) : Bool := (fsRead fs loadPath).isSome

/-- delete_save from save_load_util.rs: remove loadPath when present. -/
def delete_save (fs : Fs) : Fs :=
  if does_save_exist fs then fs.filter fun q => !(q.1 == loadPath) else fs

/-- load_game from save_load_util.rs at the file level: read loadPath; none
models the unwrap panic when the file is missing. -/
def load_game (fs : Fs) : Option (List String) := fsRead fs loadPath

theorem fsRead_filter_out (fs : Fs) (p : String) :
    fsRead (fs.filter fun q => !(q.1 == p)) p = none := by
  induction fs with
  | nil => rfl
  | cons a fs ih =>
      rw [List.filter_cons]
      cases h : a.1 == p with
      | true =>
          rw [show (!true) = false from rfl, if_neg (by simp)]
          exact ih
      | false =>
          rw [show (!false) = true from rfl, if_pos rfl, fsRead,
            List.find?_cons_of_neg _ (by rw [h]; exact Bool.false_ne_true)]
          exact ih

theorem does_save_exist_delete_save (fs : Fs) :
    does_save_exist (delete_save fs) = false := by
  rw [delete_save]
  by_cases h : does_save_exist fs = true
  · rw [if_pos h, does_save_exist, fsRead_filter_out]
    rfl
  · rw [if_neg h]
    exact Bool.eq_false_iff.mpr h

/-- C7 (code bug): immediately after save_game the save is invisible: the
record went to savePath while does_save_exist checks loadPath, and the two
paths differ, so does_save_exist reports false on a fresh file system. -/
theorem save_game_invisible_to_does_save_exist :
    does_save_exist (save_game []) = false ∧
    fsRead (save_game []) savePath = some saveComponentKinds ∧
    savePath ≠ loadPath := by
  refine ⟨by decide, rfl, by decide⟩

/-- C1 (code bug): a save followed by a load cannot round-trip: load_game
reads loadPath, which save_game never wrote, so on a fresh file system the
load finds no file (the unwrap panics); independently, the deserializer's
kind list drops DefenseBonus and MeleeDamageBonus, misaligning the stream
against the 26 serialized sections. -/
theorem save_then_load_game_fails :
    load_game (save_game []) = none ∧
    saveComponentKinds.length = 26 ∧
    loadComponentKinds.length = 24 ∧
    saveComponentKinds ≠ loadComponentKinds := by
  refine ⟨by decide, rfl, rfl, by decide⟩

/-- Main-menu options, modelled from the spec and the gui module uses in
main.rs (the gui module is not among the provided sources). -/
inductive MainMenuSelection where
  | NewGame
  | LoadGame
  | Quit
deriving DecidableEq, Repr

/-- RunState from main.rs. -/
inductive RunState where
  | AwaitingInput
  | GameOver
  | MainMenu (selection : MainMenuSelection)
  | MapGeneration
  | MonsterTurn
  | NextLevel
  | PlayerTurn
  | PreRun
  | SaveGame
  | ShowDropItem
  | ShowInventory
  | ShowRemoveItem
  | ShowTargeting (range : Int) (item : Nat)
deriving DecidableEq, Repr

/-- Tri-state menu result, modelled from the spec's menu collaborators. -/
inductive ItemMenuResult where
  | Cancel
  | NoResponse
  | Selected
deriving DecidableEq, Repr

/-- Main-menu collaborator result, modelled from the spec. -/
inductive MainMenuResult where
  | NoSelection (sel : MainMenuSelection)
  | Selection (sel : MainMenuSelection)
deriving DecidableEq, Repr

/-- Game-over menu collaborator result, modelled from the spec. -/
inductive GameOverResult where
  | NoSelection
  | QuitToMenu
deriving DecidableEq, Repr

/-- Observable side effects of one tick, one label per system or collaborator
call of main.rs. -/
inductive Action where
  | visibility
  | monsterAI
  | mapIndexing
  | meleeCombat
  | damageSystem
  | itemCollection
  | itemUse
  | itemDrop
  | itemRemove
  | particleSpawn
  | ecsMaintain
  | deleteTheDead
  | cullDeadParticles
  | saveGameAction
  | loadGameAction
  | deleteSaveAction
  | gameOverCleanupAction
  | gotoNextLevelAction
  | insertIntent
deriving DecidableEq, Repr

/-- run_systems from main.rs: the fixed straight-line system order, ending
with World::maintain. -/
def run_systems : List Action :=
  [Action.visibility, Action.monsterAI, Action.mapIndexing,
   Action.meleeCombat, Action.damageSystem, Action.itemCollection,
   Action.itemUse, Action.itemDrop, Action.itemRemove, Action.particleSpawn,
   Action.ecsMaintain]

/-- SHOW_MAPGEN from main.rs. -/
def SHOW_MAPGEN : Bool := false

/-- The collaborator responses and ambient state one tick consumes: player
input decoding, the menu widgets, the Ranged-component lookup for a selected
item, the stored mapgen continuation state and the file system. -/
structure TickEnv where
  playerInput : RunState
  invResult : ItemMenuResult
  invItem : Option Nat
  itemRanged : Nat → Option Int
  dropResult : ItemMenuResult
  dropItem : Option Nat
  removeResult : ItemMenuResult
  removeItem : Option Nat
  targetResult : ItemMenuResult
  mainMenuResult : MainMenuResult
  gameOverResult : GameOverResult
  mapgenNextState : Option RunState
  fs : Fs

/-- Result of one tick: the executed action trace with the published next
RunState and file system, a process exit, or an unwrap panic. -/
inductive TickOutcome where
  | advance (actions : List Action) (next : RunState) (fs : Fs)
  | exitProcess
  | panic
deriving Repr

/-- State::tick from main.rs as a next-state function: the leading
cull_dead_particles call, the state dispatch of lines 240-394 and the
trailing delete_the_dead call, with the rendering calls omitted (they do not
touch the RunState or the world). -/
def tick (st : RunState) (env : TickEnv) : TickOutcome :=
  let finish := fun (acts : List Action) (next : RunState) (fs : Fs) =>
    TickOutcome.advance
      (Action.cullDeadParticles :: (acts ++ [Action.deleteTheDead])) next fs
  match st with
  | RunState.PreRun => finish run_systems RunState.AwaitingInput env.fs
  | RunState.AwaitingInput => finish [] env.playerInput env.fs
  | RunState.PlayerTurn => finish run_systems RunState.MonsterTurn env.fs
  | RunState.MonsterTurn => finish run_systems RunState.AwaitingInput env.fs
  | RunState.SaveGame =>
      finish [Action.saveGameAction]
        (RunState.MainMenu MainMenuSelection.LoadGame) (save_game env.fs)
  | RunState.NextLevel =>
      finish [Action.gotoNextLevelAction] RunState.PreRun env.fs
  | RunState.ShowInventory =>
      match env.invResult with
      | ItemMenuResult.Selected =>
          match env.invItem with
          | none => TickOutcome.panic
          | some item =>
              match env.itemRanged item with
              | some range =>
                  finish [] (RunState.ShowTargeting range item) env.fs
              | none => finish [Action.insertIntent] RunState.PlayerTurn env.fs
      | ItemMenuResult.Cancel => finish [] RunState.AwaitingInput env.fs
      | ItemMenuResult.NoResponse => finish [] RunState.ShowInventory env.fs
  | RunState.ShowDropItem =>
      match env.dropResult with
      | ItemMenuResult.Selected =>
          match env.dropItem with
          | none => TickOutcome.panic
          | some _ => finish [Action.insertIntent] RunState.PlayerTurn env.fs
      | ItemMenuResult.Cancel => finish [] RunState.AwaitingInput env.fs
      | ItemMenuResult.NoResponse => finish [] RunState.ShowDropItem env.fs
  | RunState.ShowRemoveItem =>
      match env.removeResult with
      | ItemMenuResult.Selected =>
          match env.removeItem with
          | none => TickOutcome.panic
          | some _ => finish [Action.insertIntent] RunState.PlayerTurn env.fs
      | ItemMenuResult.Cancel => finish [] RunState.AwaitingInput env.fs
      | ItemMenuResult.NoResponse => finish [] RunState.ShowRemoveItem env.fs
  | RunState.ShowTargeting range item =>
      match env.targetResult with
      | ItemMenuResult.Selected =>
          finish [Action.insertIntent] RunState.PlayerTurn env.fs
      | ItemMenuResult.Cancel => finish [] RunState.AwaitingInput env.fs
      | ItemMenuResult.NoResponse =>
          finish [] (RunState.ShowTargeting range item) env.fs
  | RunState.MainMenu _ =>
      match env.mainMenuResult with
      | MainMenuResult.NoSelection prev =>
          finish [] (RunState.MainMenu prev) env.fs
      | MainMenuResult.Selection opt =>
          match opt with
          | MainMenuSelection.NewGame =>
              finish [Action.gameOverCleanupAction]
                (if SHOW_MAPGEN then RunState.MapGeneration
                 else RunState.PreRun) env.fs
          | MainMenuSelection.LoadGame =>
              if does_save_exist env.fs then
                finish [Action.loadGameAction, Action.deleteSaveAction]
                  RunState.AwaitingInput (delete_save env.fs)
              else
                finish [] (RunState.MainMenu MainMenuSelection.LoadGame) env.fs
          | MainMenuSelection.Quit => TickOutcome.exitProcess
  | RunState.GameOver =>
      match env.gameOverResult with
      | GameOverResult.NoSelection => finish [] RunState.GameOver env.fs
      | GameOverResult.QuitToMenu =>
          finish [Action.gameOverCleanupAction]
            (RunState.MainMenu MainMenuSelection.NewGame) env.fs
  | RunState.MapGeneration =>
      if SHOW_MAPGEN then finish [] RunState.MapGeneration env.fs
      else
        match env.mapgenNextState with
        | some s => finish [] s env.fs
        | none => TickOutcome.panic

/-- The RunState resource inserted at startup by main (main.rs line 465). -/
def initial_run_state : RunState := RunState.MapGeneration

/-- The mapgen continuation stored at startup (main.rs line 416). -/
def mapgen_initial_next_state : Option RunState :=
  some (RunState.MainMenu MainMenuSelection.NewGame)

/-- Whether a state is a MainMenu state. -/
def RunState.is_main_menu : RunState → Bool
  | RunState.MainMenu _ => true
  | _ => false

/-- The system order the spec fixes for the full pipeline: visibility, AI,
spatial indexing, melee, damage, the item intents, then dead-entity
culling. -/
def pipelineOrder : List Action :=
  [Action.visibility, Action.monsterAI, Action.mapIndexing,
   Action.meleeCombat, Action.damageSystem, Action.itemCollection,
   Action.itemUse, Action.itemDrop, Action.itemRemove, Action.deleteTheDead]

/-- C6: for the five non-delegating states the published next state and the
side effects are a fixed function of the current state: PreRun, PlayerTurn
and MonsterTurn run the full pipeline and yield AwaitingInput, MonsterTurn
and AwaitingInput respectively; SaveGame invokes the save collaborator and
yields MainMenu(LoadGame); NextLevel performs the level advance and yields
PreRun. -/
theorem tick_fixed_transitions (env : TickEnv) :
    tick RunState.PreRun env = TickOutcome.advance
      (Action.cullDeadParticles :: (run_systems ++ [Action.deleteTheDead]))
      RunState.AwaitingInput env.fs ∧
    tick RunState.PlayerTurn env = TickOutcome.advance
      (Action.cullDeadParticles :: (run_systems ++ [Action.deleteTheDead]))
      RunState.MonsterTurn env.fs ∧
    tick RunState.MonsterTurn env = TickOutcome.advance
      (Action.cullDeadParticles :: (run_systems ++ [Action.deleteTheDead]))
      RunState.AwaitingInput env.fs ∧
    tick RunState.SaveGame env = TickOutcome.advance
      (Action.cullDeadParticles ::
        ([Action.saveGameAction] ++ [Action.deleteTheDead]))
      (RunState.MainMenu MainMenuSelection.LoadGame) (save_game env.fs) ∧
    tick RunState.NextLevel env = TickOutcome.advance
      (Action.cullDeadParticles ::
        ([Action.gotoNextLevelAction] ++ [Action.deleteTheDead]))
      RunState.PreRun env.fs :=
  ⟨rfl, rfl, rfl, rfl, rfl⟩

/-- C5: whenever a tick runs the full system pipeline (PreRun, PlayerTurn or
MonsterTurn), the single call emits the whole trace at once, and the spec's
fixed total order visibility, AI, indexing, melee, damage, item intents,
dead-entity culling embeds in that trace in order. -/
theorem tick_runs_full_pipeline (env : TickEnv) (st : RunState)
    (hst : st = RunState.PreRun ∨ st = RunState.PlayerTurn ∨
      st = RunState.MonsterTurn) :
    ∃ next, tick st env = TickOutcome.advance
        (Action.cullDeadParticles :: (run_systems ++ [Action.deleteTheDead]))
        next env.fs ∧
      pipelineOrder.Sublist
        (Action.cullDeadParticles ::
          (run_systems ++ [Action.deleteTheDead])) := by
  rcases hst with rfl | rfl | rfl
  · exact ⟨RunState.AwaitingInput, rfl, by decide⟩
  · exact ⟨RunState.MonsterTurn, rfl, by decide⟩
  · exact ⟨RunState.AwaitingInput, rfl, by decide⟩

/-- A fixed collaborator environment used by witness instantiations. -/
def envW : TickEnv :=
  TickEnv.mk RunState.AwaitingInput ItemMenuResult.NoResponse none
    (fun _ => none) ItemMenuResult.NoResponse none ItemMenuResult.NoResponse
    none ItemMenuResult.NoResponse
    (MainMenuResult.NoSelection MainMenuSelection.NewGame)
    GameOverResult.NoSelection mapgen_initial_next_state []

/-- Concrete instance of the pipeline theorem at PreRun. -/
theorem tick_runs_full_pipeline_witness :
    ∃ next, tick RunState.PreRun envW = TickOutcome.advance
        (Action.cullDeadParticles :: (run_systems ++ [Action.deleteTheDead]))
        next envW.fs ∧
      pipelineOrder.Sublist
        (Action.cullDeadParticles ::
          (run_systems ++ [Action.deleteTheDead])) :=
  tick_runs_full_pipeline envW RunState.PreRun (Or.inl rfl)

/-- C9 counterexample: the RunState held at startup, before the first tick,
is MapGeneration, not a MainMenu state. -/
theorem initial_run_state_not_main_menu :
    initial_run_state = RunState.MapGeneration ∧
    RunState.is_main_menu initial_run_state = false :=
  ⟨rfl, rfl⟩

/-- C9 amended: the startup RunState is MapGeneration, and with SHOW_MAPGEN
disabled the very first tick forwards to the stored continuation
MainMenu(NewGame) without running the system pipeline, so MainMenu is the
first state the player-visible machine occupies. -/
theorem initial_run_state_reaches_main_menu (env : TickEnv)
    (h : env.mapgenNextState = mapgen_initial_next_state) :
    initial_run_state = RunState.MapGeneration ∧
    tick initial_run_state env = TickOutcome.advance
      [Action.cullDeadParticles, Action.deleteTheDead]
      (RunState.MainMenu MainMenuSelection.NewGame) env.fs := by
  refine ⟨rfl, ?_⟩
  simp only [tick, initial_run_state, SHOW_MAPGEN, Bool.false_eq_true,
    if_false, h, mapgen_initial_next_state]
  rfl

/-- Concrete instance of the amended startup theorem. -/
theorem initial_run_state_reaches_main_menu_witness :
    initial_run_state = RunState.MapGeneration ∧
    tick initial_run_state envW = TickOutcome.advance
      [Action.cullDeadParticles, Action.deleteTheDead]
      (RunState.MainMenu MainMenuSelection.NewGame) envW.fs :=
  initial_run_state_reaches_main_menu envW rfl

/-- C10: selecting LoadGame from the main menu while a save exists loads the
game, publishes AwaitingInput and deletes the save file, so the save can be
loaded at most once: does_save_exist reports false immediately afterwards.
The load itself reads the same path, so it cannot miss the file. -/
theorem tick_load_game_consumes_save (env : TickEnv) (sel : MainMenuSelection)
    (hres : env.mainMenuResult
      = MainMenuResult.Selection MainMenuSelection.LoadGame)
    (hsave : does_save_exist env.fs = true) :
    tick (RunState.MainMenu sel) env = TickOutcome.advance
      (Action.cullDeadParticles ::
        ([Action.loadGameAction, Action.deleteSaveAction] ++
          [Action.deleteTheDead]))
      RunState.AwaitingInput (delete_save env.fs) ∧
    does_save_exist (delete_save env.fs) = false ∧
    load_game env.fs ≠ none := by
  refine ⟨?_, does_save_exist_delete_save env.fs, ?_⟩
  · show (match env.mainMenuResult with
      | MainMenuResult.NoSelection prev => _
      | MainMenuResult.Selection opt => _) = _
    rw [hres]
    show (if does_save_exist env.fs then _ else _) = _
    rw [if_pos hsave]
  · rw [load_game]
    intro hnone
    rw [does_save_exist, hnone] at hsave
    cases hsave

/-- Environment holding exactly one save file, with LoadGame selected. -/
def envW10 : TickEnv :=
  TickEnv.mk RunState.AwaitingInput ItemMenuResult.NoResponse none
    (fun _ => none) ItemMenuResult.NoResponse none ItemMenuResult.NoResponse
    none ItemMenuResult.NoResponse
    (MainMenuResult.Selection MainMenuSelection.LoadGame)
    GameOverResult.NoSelection mapgen_initial_next_state
    [(loadPath, saveComponentKinds)]

/-- Concrete instance of the load-consumes-save theorem. -/
theorem tick_load_game_consumes_save_witness :
    tick (RunState.MainMenu MainMenuSelection.LoadGame) envW10
      = TickOutcome.advance
        (Action.cullDeadParticles ::
          ([Action.loadGameAction, Action.deleteSaveAction] ++
            [Action.deleteTheDead]))
        RunState.AwaitingInput (delete_save envW10.fs) ∧
    does_save_exist (delete_save envW10.fs) = false ∧
    load_game envW10.fs ≠ none :=
  tick_load_game_consumes_save envW10 MainMenuSelection.LoadGame rfl (by decide)

end Roguelike
